import Mathlib

/-!
# FinTwitch ledger and habit tracker: shallow embedding

Shallow embedding of the state-mutation core of `src/App.jsx`:
the ledger state machine (`transact`, `login`, `markArticleRead`, `invest`,
`realizeInvestment` in `UserProvider`), the habit streak tracker
(`HabitTracker`), and the local-cache JSON encoding (`useLocalState`).

Modelling conventions:
* JS numbers are modelled as `ℚ` (the spec treats balances as decimals
  rounded to two fractional digits; `round2 n = Math.round(n*100)/100`).
  Mathlib's `round` rounds halves up, exactly as JS `Math.round`.
* Calendar dates (ISO `YYYY-MM-DD` strings in the source) are modelled as
  day indices `ℕ`; `yesterdayStr()` of day `d` is day `d - 1`.
* `Date.now()` transaction ids are `ℕ`, ISO timestamps are `String`.
* The JS object `readArticles` (`{id: true, ...}`) is modelled as the list
  of its keys in insertion order; `arr.slice(-n)` keeps the last `n`
  elements; `new Set(arr)` deduplicates keeping first occurrences.
-/

/-- `round2` from App.jsx: `Math.round(n * 100) / 100`. -/
def round2 (n : ℚ) : ℚ := (round (n * 100) : ℤ) / 100

/-- JS `arr.slice(-n)`: the last `n` elements of the list (all of them when
`l.length ≤ n`). -/
def sliceLast (l : List α) (n : ℕ) : List α := l.drop (l.length - n)

/-- Iteration of JS `Set` construction: walk the list, skip an element
already seen, otherwise emit it and remember it. -/
def dedupFirstAux [DecidableEq α] (seen : List α) : List α → List α
  | [] => []
  | a :: l =>
    if a ∈ seen then dedupFirstAux seen l
    else a :: dedupFirstAux (seen ++ [a]) l

/-- JS `Array.from(new Set(arr))`: deduplicate keeping the first occurrence
of each element, in order. -/
def dedupFirst [DecidableEq α] (l : List α) : List α := dedupFirstAux [] l

/-- One ledger entry, as built by `transact`:
`{ id: Date.now(), ts: toISOString(), amount: round2(amount), balanceAfter, source, label }`. -/
structure Tx where
  id : ℕ
  ts : String
  amount : ℚ
  balanceAfter : ℚ
  source : String
  label : Option String
deriving Repr, DecidableEq

/-- One open investment position `{id, amount, symbol}`. -/
structure Investment where
  id : ℕ
  amount : ℚ
  symbol : String
deriving Repr, DecidableEq

/-- The `fintwitch_user` state owned by `UserProvider`. -/
structure UserAccount where
  username : Option String
  balance : ℚ
  lastLogin : Option ℕ
  streak : ℕ
  loginDates : List ℕ
  readArticles : List String
  investments : List Investment
  transactions : List Tx
deriving Repr, DecidableEq

attribute [ext] UserAccount

/-- The initial state passed to `useLocalState("fintwitch_user", ...)`. -/
def initialUser : UserAccount :=
  { username := none
    balance := 1000
    lastLogin := none
    streak := 0
    loginDates := []
    readArticles := []
    investments := []
    transactions := [] }

/-- `transact(amount, {source, label})` from App.jsx: clamp-and-round the
balance, append one entry, keep the most recent 200. The fresh `Date.now()`
id and ISO timestamp are passed as parameters `txId`, `ts`. -/
def transact (u : UserAccount) (amount : ℚ) (txId : ℕ) (ts : String)
    (source : String) (label : Option String) : UserAccount :=
  let newBalance := round2 (max 0 (u.balance + amount))
  let tx : Tx :=
    { id := txId, ts := ts, amount := round2 amount, balanceAfter := newBalance
      source := source, label := label }
  { u with
      balance := newBalance
      transactions := sliceLast (u.transactions ++ [tx]) 200 }

/-- `login(username)` from App.jsx, with `todayStr()` passed as the day
index `today` (so `yesterdayStr()` is `today - 1`). -/
def login (u : UserAccount) (username : String) (today : ℕ) : UserAccount :=
  let was := u.lastLogin
  let p : ℕ × ℚ :=
    if was = some today then (u.streak, u.balance)
    else if was = some (today - 1) then (u.streak + 1, round2 (u.balance + 10))
    else (1, if was.isSome then max 0 (round2 (u.balance - 20)) else u.balance)
  { u with
      username := some username
      balance := p.2
      lastLogin := some today
      streak := p.1
      loginDates := sliceLast (dedupFirst (u.loginDates ++ [today])) 30 }

/-- `markArticleRead(id, reward)` from App.jsx. -/
def markArticleRead (u : UserAccount) (id : String) (reward : ℚ) : UserAccount :=
  if id ∈ u.readArticles then u
  else
    { u with
        readArticles := u.readArticles ++ [id]
        balance := round2 (u.balance + reward) }

/-- `invest(investment)` from App.jsx. -/
def invest (u : UserAccount) (i : Investment) : UserAccount :=
  { u with investments := u.investments ++ [i] }

/-- `realizeInvestment(id, multiplier)` from App.jsx. -/
def realizeInvestment (u : UserAccount) (id : ℕ) (multiplier : ℚ) : UserAccount :=
  match u.investments.find? (fun i => i.id = id) with
  | none => u
  | some inv =>
    let returned := round2 (inv.amount * multiplier)
    { u with
        balance := round2 (u.balance + returned)
        investments := u.investments.filter (fun i => i.id ≠ id) }

-- Basic facts about the helpers ------------------------------------------------

theorem round2_nonneg {q : ℚ} (h : 0 ≤ q) : 0 ≤ round2 q := by
  unfold round2
  have h1 : (0 : ℤ) ≤ round (q * 100) := by
    rw [round_eq]
    apply Int.le_floor.mpr
    push_cast
    nlinarith
  positivity

theorem sliceLast_of_le {l : List α} {n : ℕ} (h : l.length ≤ n) :
    sliceLast l n = l := by
  unfold sliceLast
  rw [Nat.sub_eq_zero_of_le h, List.drop_zero]

theorem length_sliceLast (l : List α) (n : ℕ) :
    (sliceLast l n).length = min l.length n := by
  unfold sliceLast
  rw [List.length_drop]
  omega

theorem round2_intCast (z : ℤ) : round2 ((z : ℚ)) = (z : ℚ) := by
  unfold round2
  rw [show ((z : ℚ)) * 100 = ((z * 100 : ℤ) : ℚ) by push_cast; ring, round_intCast]
  push_cast
  field_simp

/-- `login` always records today and the supplied username; the article set,
investments and transactions are untouched. -/
theorem login_fields (u : UserAccount) (name : String) (today : ℕ) :
    (login u name today).username = some name
    ∧ (login u name today).lastLogin = some today
    ∧ (login u name today).readArticles = u.readArticles
    ∧ (login u name today).investments = u.investments
    ∧ (login u name today).transactions = u.transactions := by
  simp [login]

/-- `login` when `lastLogin` is already today: streak and balance untouched. -/
theorem login_case_same (u : UserAccount) (name : String) (today : ℕ)
    (h : u.lastLogin = some today) :
    (login u name today).streak = u.streak
    ∧ (login u name today).balance = u.balance := by
  simp [login, h]

/-- `login` when `lastLogin` is yesterday: streak increments, +10 bonus. -/
theorem login_case_yesterday (u : UserAccount) (name : String) (today : ℕ)
    (h : u.lastLogin = some (today - 1)) (hne : today - 1 ≠ today) :
    (login u name today).streak = u.streak + 1
    ∧ (login u name today).balance = round2 (u.balance + 10) := by
  simp [login, h, hne]

/-- `login` after a gap of at least two days: streak resets to 1, −20
penalty clamped at zero. -/
theorem login_case_gap (u : UserAccount) (name : String) (today d0 : ℕ)
    (h : u.lastLogin = some d0) (h1 : d0 ≠ today) (h2 : d0 ≠ today - 1) :
    (login u name today).streak = 1
    ∧ (login u name today).balance = max 0 (round2 (u.balance - 20)) := by
  simp [login, h, h1, h2]

/-- `login` with no previous login: streak 1, no penalty. -/
theorem login_case_first (u : UserAccount) (name : String) (today : ℕ)
    (h : u.lastLogin = none) :
    (login u name today).streak = 1
    ∧ (login u name today).balance = u.balance := by
  simp [login, h]

-- C4 --------------------------------------------------------------------------

/-- C4: `markArticleRead` is idempotent: applying it twice yields the same
final state as applying it once; from a state where the article is unread the
balance becomes `round2(balance + reward)` (the reward is paid exactly once,
not twice); if the article is already read the state is returned unchanged. -/
theorem markArticleRead_idempotent (u : UserAccount) (a : String) (r : ℚ) :
    markArticleRead (markArticleRead u a r) a r = markArticleRead u a r
    ∧ (a ∉ u.readArticles →
        (markArticleRead u a r).balance = round2 (u.balance + r)
        ∧ a ∈ (markArticleRead u a r).readArticles)
    ∧ (a ∈ u.readArticles → markArticleRead u a r = u) := by
  by_cases h : a ∈ u.readArticles
  · simp [markArticleRead, h]
  · refine ⟨?_, fun _ => ⟨?_, ?_⟩, fun hmem => absurd hmem h⟩
    · have h1 : a ∈ (markArticleRead u a r).readArticles := by
        simp [markArticleRead, h]
      simp [markArticleRead, h] at h1 ⊢
    · simp [markArticleRead, h]
    · simp [markArticleRead, h]

/-- Witness for C4 at a concrete input: the article is unread, the reward is
credited once, and re-marking is a no-op. -/
theorem markArticleRead_idempotent_witness :
    ("a1" ∉ initialUser.readArticles)
    ∧ (markArticleRead initialUser "a1" 50).balance = round2 (initialUser.balance + 50)
    ∧ "a1" ∈ (markArticleRead initialUser "a1" 50).readArticles := by
  have h := (markArticleRead_idempotent initialUser "a1" 50).2.1 (by decide)
  exact ⟨by decide, h.1, h.2⟩

-- C6 --------------------------------------------------------------------------

/-- C6: re-login on the same calendar date is idempotent for the streak and
the balance: if `lastLogin` already equals today, `login` leaves `streak` and
`balance` unchanged. -/
theorem login_same_day_idempotent (u : UserAccount) (name : String) (today : ℕ)
    (h : u.lastLogin = some today) :
    (login u name today).streak = u.streak
    ∧ (login u name today).balance = u.balance := by
  simp [login, h]

/-- Witness for C6 at a concrete input. -/
theorem login_same_day_idempotent_witness :
    (login { initialUser with lastLogin := some 7, streak := 3 } "alice" 7).streak
      = ({ initialUser with lastLogin := some 7, streak := 3 } : UserAccount).streak
    ∧ (login { initialUser with lastLogin := some 7, streak := 3 } "alice" 7).balance
      = ({ initialUser with lastLogin := some 7, streak := 3 } : UserAccount).balance :=
  login_same_day_idempotent { initialUser with lastLogin := some 7, streak := 3 } "alice" 7 rfl

-- C7 --------------------------------------------------------------------------

/-- C7: `realizeInvestment` is a no-op (every field unchanged) when no open
position carries the requested id; when the first such position `inv` exists,
`round2(inv.amount * multiplier)` is credited to the (re-rounded) balance and
every position with that id is removed, all other fields unchanged. -/
theorem realizeInvestment_spec (u : UserAccount) (id : ℕ) (m : ℚ) :
    ((∀ inv ∈ u.investments, inv.id ≠ id) → realizeInvestment u id m = u)
    ∧ (∀ inv, u.investments.find? (fun i => i.id = id) = some inv →
        (realizeInvestment u id m).balance = round2 (u.balance + round2 (inv.amount * m))
        ∧ (realizeInvestment u id m).investments
            = u.investments.filter (fun i => i.id ≠ id)
        ∧ (realizeInvestment u id m).username = u.username
        ∧ (realizeInvestment u id m).lastLogin = u.lastLogin
        ∧ (realizeInvestment u id m).streak = u.streak
        ∧ (realizeInvestment u id m).loginDates = u.loginDates
        ∧ (realizeInvestment u id m).readArticles = u.readArticles
        ∧ (realizeInvestment u id m).transactions = u.transactions) := by
  constructor
  · intro hnone
    have hfind : u.investments.find? (fun i => i.id = id) = none := by
      rw [List.find?_eq_none]
      intro inv hmem
      simpa using hnone inv hmem
    simp [realizeInvestment, hfind]
  · intro inv hfind
    simp [realizeInvestment, hfind]

/-- Witness for C7 at concrete inputs: an unknown id is a no-op, a known id
credits the rounded return and removes the position. -/
theorem realizeInvestment_spec_witness :
    realizeInvestment { initialUser with investments := [⟨1, 300, "TCS"⟩] } 2 (3/2)
      = { initialUser with investments := [⟨1, 300, "TCS"⟩] }
    ∧ (realizeInvestment { initialUser with investments := [⟨1, 300, "TCS"⟩] } 1 (3/2)).balance
      = round2 (({ initialUser with investments := [⟨1, 300, "TCS"⟩] } : UserAccount).balance
          + round2 ((300 : ℚ) * (3/2))) := by
  constructor
  · exact (realizeInvestment_spec { initialUser with investments := [⟨1, 300, "TCS"⟩] } 2 (3/2)).1
      (by decide)
  · exact ((realizeInvestment_spec { initialUser with investments := [⟨1, 300, "TCS"⟩] } 1
      (3/2)).2 ⟨1, 300, "TCS"⟩ (by decide)).1

-- C3 --------------------------------------------------------------------------

/-- Counterexample for C3 as stated: `markArticleRead` does not clamp the
balance at zero, so with a (universally quantified) negative reward the
balance of the resulting state is strictly below zero. -/
theorem balance_nonneg_counterexample :
    0 ≤ initialUser.balance
    ∧ (markArticleRead initialUser "a1" (-2000)).balance < 0 := by
  constructor
  · norm_num [initialUser]
  · have h : (markArticleRead initialUser "a1" (-2000)).balance
        = round2 (1000 + (-2000)) := by
      simp [markArticleRead, initialUser]
    rw [h, show ((1000 : ℚ) + (-2000)) = ((-1000 : ℤ) : ℚ) by norm_num,
      round2_intCast]
    norm_num

/-- C3 amended: starting from a state with non-negative balance, the balance
stays non-negative under `transact` (any amount) and `login`; under
`markArticleRead` it stays non-negative whenever the reward is non-negative;
under `realizeInvestment` whenever every open position's `amount * multiplier`
is non-negative (`markArticleRead` and `realizeInvestment` have no zero
clamp of their own). -/
theorem balance_nonneg_preserved (u : UserAccount) (h : 0 ≤ u.balance) :
    (∀ amount txId ts source label,
        0 ≤ (transact u amount txId ts source label).balance)
    ∧ (∀ name today, 0 ≤ (login u name today).balance)
    ∧ (∀ a r, 0 ≤ r → 0 ≤ (markArticleRead u a r).balance)
    ∧ (∀ i m, (∀ inv ∈ u.investments, 0 ≤ inv.amount * m) →
        0 ≤ (realizeInvestment u i m).balance) := by
  refine ⟨fun amount txId ts source label => ?_, fun name today => ?_,
    fun a r hr => ?_, fun i m hm => ?_⟩
  · simp only [transact]
    exact round2_nonneg (le_max_left _ _)
  · simp only [login]
    split_ifs with h1 h2 h3
    · exact h
    · exact round2_nonneg (by linarith)
    · exact le_max_left _ _
    · exact h
  · simp only [markArticleRead]
    split_ifs with h1
    · exact h
    · exact round2_nonneg (by linarith)
  · cases hfind : u.investments.find? (fun i2 => i2.id = i) with
    | none => simpa [realizeInvestment, hfind] using h
    | some inv =>
      have hmem : inv ∈ u.investments := List.mem_of_find?_eq_some hfind
      have h1 : 0 ≤ inv.amount * m := hm inv hmem
      simp only [realizeInvestment, hfind]
      exact round2_nonneg (add_nonneg h (round2_nonneg h1))

/-- Witness for C3 (amended) at concrete inputs: a large spend is clamped to
a non-negative balance, and a non-negative reward keeps it non-negative. -/
theorem balance_nonneg_preserved_witness :
    0 ≤ (transact initialUser (-5000) 1 "t0" "system" none).balance
    ∧ 0 ≤ (markArticleRead initialUser "a1" 50).balance := by
  have h := balance_nonneg_preserved initialUser (by norm_num [initialUser])
  exact ⟨h.1 (-5000) 1 "t0" "system" none, h.2.2.1 "a1" 50 (by norm_num)⟩

-- C5 --------------------------------------------------------------------------

/-- A state with a previous login recorded exactly yesterday relative to day 5
and a running streak of 7: the first call of the C5 scenario then yields
streak 8, not 1. -/
def prevLoginYesterday : UserAccount :=
  { initialUser with lastLogin := some 4, streak := 7 }

/-- Counterexample for C5 as stated: the claim quantifies over every state
with a previous login recorded, but if that previous login was on day D−1
(here D = 5, last login day 4, streak 7) the first call yields streak 8,
not 1. -/
theorem login_day_sequence_counterexample :
    prevLoginYesterday.lastLogin.isSome = true
    ∧ (login prevLoginYesterday "u" 5).streak ≠ 1 := by decide

/-- C5 amended: for every state whose recorded previous login `d0` is
neither D nor D−1 (a gap of at least two days), calling `login` on days D,
D+1 and D+3 produces streaks 1, 2, 1; credits +10 at the D+1 call; and
applies a −20 penalty clamped at ≥ 0 at the D+3 call (a clamped −20 penalty
is likewise applied at the D call, since a previous login existed). -/
theorem login_day_sequence (u : UserAccount) (d0 D : ℕ) (n1 n2 n3 : String)
    (h0 : u.lastLogin = some d0) (hne1 : d0 ≠ D) (hne2 : d0 ≠ D - 1) :
    (login u n1 D).streak = 1
    ∧ (login u n1 D).balance = max 0 (round2 (u.balance - 20))
    ∧ (login (login u n1 D) n2 (D + 1)).streak = 2
    ∧ (login (login u n1 D) n2 (D + 1)).balance
        = round2 ((login u n1 D).balance + 10)
    ∧ (login (login (login u n1 D) n2 (D + 1)) n3 (D + 3)).streak = 1
    ∧ (login (login (login u n1 D) n2 (D + 1)) n3 (D + 3)).balance
        = max 0 (round2 ((login (login u n1 D) n2 (D + 1)).balance - 20))
    ∧ 0 ≤ (login (login (login u n1 D) n2 (D + 1)) n3 (D + 3)).balance := by
  have h1 := login_case_gap u n1 D d0 h0 hne1 hne2
  have h1l : (login u n1 D).lastLogin = some D := (login_fields u n1 D).2.1
  have h2 := login_case_yesterday (login u n1 D) n2 (D + 1)
    (by simp [h1l]) (by omega)
  have h2l : (login (login u n1 D) n2 (D + 1)).lastLogin = some (D + 1) :=
    (login_fields (login u n1 D) n2 (D + 1)).2.1
  have h3 := login_case_gap (login (login u n1 D) n2 (D + 1)) n3 (D + 3) (D + 1)
    h2l (by omega) (by omega)
  refine ⟨h1.1, h1.2, ?_, h2.2, h3.1, h3.2, h3.2 ▸ le_max_left _ _⟩
  rw [h2.1, h1.1]

/-- Witness for C5 (amended) at concrete inputs: last login on day 1,
calls on days 10, 11 and 13 give streaks 1, 2, 1. -/
theorem login_day_sequence_witness :
    (login { initialUser with lastLogin := some 1, streak := 5 } "a" 10).streak = 1
    ∧ (login (login { initialUser with lastLogin := some 1, streak := 5 } "a" 10)
        "b" 11).streak = 2
    ∧ (login (login (login { initialUser with lastLogin := some 1, streak := 5 }
        "a" 10) "b" 11) "c" 13).streak = 1 := by
  have h := login_day_sequence { initialUser with lastLogin := some 1, streak := 5 }
    1 10 "a" "b" "c" rfl (by decide) (by decide)
  exact ⟨h.1, h.2.2.1, h.2.2.2.2.1⟩

-- C1 --------------------------------------------------------------------------

/-- Counterexample for C1 as stated: `markArticleRead` on a fresh article
changes the balance yet appends no transaction entry (the transactions list
is returned unchanged, so it is not the input list plus one entry). -/
theorem balance_change_without_tx_entry :
    (markArticleRead initialUser "a1" 50).balance ≠ initialUser.balance
    ∧ (markArticleRead initialUser "a1" 50).transactions
        = initialUser.transactions := by
  constructor
  · have h : (markArticleRead initialUser "a1" 50).balance
        = round2 (1000 + 50) := by
      simp [markArticleRead, initialUser]
    rw [h, show ((1000 : ℚ) + 50) = ((1050 : ℤ) : ℚ) by norm_num, round2_intCast]
    norm_num [initialUser]
  · simp [markArticleRead, initialUser]

/-- C1 amended: only `transact` couples a balance mutation with a ledger
append: it appends exactly one entry whose `balanceAfter` equals the
resulting balance (then truncates to the most recent 200; the append is
exact when fewer than 200 entries are present). `login`, `markArticleRead`
and `realizeInvestment` leave the transactions list unchanged even when they
change the balance. -/
theorem transact_appends_one_entry (u : UserAccount) (amount : ℚ) (txId : ℕ)
    (ts source : String) (label : Option String) :
    (transact u amount txId ts source label).transactions
      = sliceLast (u.transactions ++
          [{ id := txId, ts := ts, amount := round2 amount,
             balanceAfter := (transact u amount txId ts source label).balance,
             source := source, label := label }]) 200
    ∧ (u.transactions.length < 200 →
        (transact u amount txId ts source label).transactions
          = u.transactions ++
            [{ id := txId, ts := ts, amount := round2 amount,
               balanceAfter := (transact u amount txId ts source label).balance,
               source := source, label := label }])
    ∧ (∀ name today, (login u name today).transactions = u.transactions)
    ∧ (∀ a r, (markArticleRead u a r).transactions = u.transactions)
    ∧ (∀ i m, (realizeInvestment u i m).transactions = u.transactions) := by
  have happ : (transact u amount txId ts source label).transactions
      = sliceLast (u.transactions ++
          [{ id := txId, ts := ts, amount := round2 amount,
             balanceAfter := (transact u amount txId ts source label).balance,
             source := source, label := label }]) 200 := by
    simp [transact]
  refine ⟨happ, fun h => ?_, fun name today => (login_fields u name today).2.2.2.2,
    fun a r => ?_, fun i m => ?_⟩
  · rw [happ]
    apply sliceLast_of_le
    rw [List.length_append, List.length_singleton]
    omega
  · by_cases hmem : a ∈ u.readArticles <;> simp [markArticleRead, hmem]
  · cases hfind : u.investments.find? (fun i2 => i2.id = i) <;>
      simp [realizeInvestment, hfind]

/-- Witness for C1 (amended) at a concrete input: from the initial state
(fewer than 200 entries) `transact` appends exactly one entry carrying the
post-mutation balance. -/
theorem transact_appends_one_entry_witness :
    (transact initialUser 100 7 "t0" "quiz" none).transactions
      = initialUser.transactions ++
        [{ id := 7, ts := "t0", amount := round2 100,
           balanceAfter := (transact initialUser 100 7 "t0" "quiz" none).balance,
           source := "quiz", label := none }] :=
  (transact_appends_one_entry initialUser 100 7 "t0" "quiz" none).2.1 (by decide)

-- C10 -------------------------------------------------------------------------

/-- A state whose `lastLogin` is already day 5 but whose `loginDates` list
does not contain day 5. -/
def sameDayMissingDate : UserAccount := { initialUser with lastLogin := some 5 }

/-- Counterexample for C10 as stated: on same-day re-login `login` still
re-inserts today into `loginDates`, so a state whose `loginDates` lacks
today's date does not keep that field unchanged. -/
theorem login_same_day_frame_counterexample :
    sameDayMissingDate.lastLogin = some 5
    ∧ (login sameDayMissingDate "alice" 5).loginDates
        ≠ sameDayMissingDate.loginDates := by
  exact ⟨rfl, by decide⟩

/-- Auxiliary: walking `l ++ [t]` through the JS-`Set` construction returns
`l` itself when `l` is duplicate-free, disjoint from `seen`, and `t` already
occurs in `seen` or in `l`. -/
theorem dedupFirstAux_append_last [DecidableEq α] (l : List α) (t : α) :
    ∀ seen, l.Nodup → (∀ x ∈ l, x ∉ seen) → (t ∈ seen ∨ t ∈ l) →
      dedupFirstAux seen (l ++ [t]) = l := by
  induction l with
  | nil =>
    intro seen _ _ hmem
    rcases hmem with hs | hl
    · simp [dedupFirstAux, hs]
    · cases hl
  | cons a l ih =>
    intro seen hnd hdisj hmem
    have ha : a ∉ seen := hdisj a (by simp)
    simp only [List.cons_append, dedupFirstAux, if_neg ha]
    congr 1
    apply ih
    · exact (List.nodup_cons.mp hnd).2
    · intro x hx
      simp only [List.mem_append, List.mem_singleton]
      rintro (hs | hxa)
      · exact hdisj x (by simp [hx]) hs
      · exact (List.nodup_cons.mp hnd).1 (hxa ▸ hx)
    · rcases hmem with hs | hl2
      · left; simp [hs]
      · rcases List.mem_cons.mp hl2 with hta | htl
        · left; simp [hta]
        · right; exact htl

/-- C10 amended: on same-day re-login, `login` overwrites `username` with
the supplied name and leaves balance, streak, lastLogin, readArticles,
investments and transactions unchanged; `loginDates` is additionally
unchanged provided it already contains today, is duplicate-free and has at
most 30 entries — under those conditions same-day re-login with the stored
username is a full no-op. -/
theorem login_same_day_frame (u : UserAccount) (name : String) (today : ℕ)
    (h : u.lastLogin = some today) :
    (login u name today).username = some name
    ∧ (login u name today).balance = u.balance
    ∧ (login u name today).streak = u.streak
    ∧ (login u name today).lastLogin = u.lastLogin
    ∧ (login u name today).readArticles = u.readArticles
    ∧ (login u name today).investments = u.investments
    ∧ (login u name today).transactions = u.transactions
    ∧ (today ∈ u.loginDates → u.loginDates.Nodup → u.loginDates.length ≤ 30 →
        (login u name today).loginDates = u.loginDates
        ∧ (u.username = some name → login u name today = u)) := by
  have hf := login_fields u name today
  have hs := login_case_same u name today h
  have hdates : ∀ _ : today ∈ u.loginDates, ∀ _ : u.loginDates.Nodup,
      ∀ _ : u.loginDates.length ≤ 30,
      (login u name today).loginDates = u.loginDates := by
    intro hmem hnd hlen
    show sliceLast (dedupFirst (u.loginDates ++ [today])) 30 = u.loginDates
    rw [dedupFirst, dedupFirstAux_append_last u.loginDates today [] hnd
      (by simp) (Or.inr hmem)]
    exact sliceLast_of_le hlen
  refine ⟨hf.1, hs.2, hs.1, by rw [hf.2.1, h], hf.2.2.1, hf.2.2.2.1,
    hf.2.2.2.2, fun hmem hnd hlen => ⟨hdates hmem hnd hlen, fun hu => ?_⟩⟩
  apply UserAccount.ext
  · rw [hf.1, hu]
  · exact hs.2
  · rw [hf.2.1, h]
  · exact hs.1
  · exact hdates hmem hnd hlen
  · exact hf.2.2.1
  · exact hf.2.2.2.1
  · exact hf.2.2.2.2

/-- A same-day state in normal form: the stored username is the one supplied
again, today (day 5) is already in `loginDates`, no duplicates, length ≤ 30. -/
def aliceSameDay : UserAccount :=
  { initialUser with
      username := some "alice"
      lastLogin := some 5
      loginDates := [4, 5] }

/-- Witness for C10 (amended) at a concrete input: a same-day re-login with
the stored username and a well-formed `loginDates` is a full no-op. -/
theorem login_same_day_frame_witness :
    login aliceSameDay "alice" 5 = aliceSameDay :=
  ((login_same_day_frame aliceSameDay "alice" 5 rfl).2.2.2.2.2.2.2
    (by decide) (by decide) (by decide)).2 rfl

-- C2 --------------------------------------------------------------------------

/-- Truncating to the last `n`, appending, and truncating again is the same
as truncating the whole concatenation: the oldest entries drop first. -/
theorem sliceLast_append_left (l m : List α) (n : ℕ) :
    sliceLast (sliceLast l n ++ m) n = sliceLast (l ++ m) n := by
  unfold sliceLast
  rw [List.drop_append_eq_append_drop, List.drop_append_eq_append_drop,
    List.drop_drop]
  congr 1
  · congr 1
    simp only [List.length_append, List.length_drop]
    omega
  · congr 1
    simp only [List.length_append, List.length_drop]
    omega

/-- One call of `transact`: the signed amount plus the fresh id, timestamp,
source and label the caller supplies. -/
structure TxCall where
  amount : ℚ
  txId : ℕ
  ts : String
  source : String
  label : Option String
deriving Repr, DecidableEq

/-- Run a finite sequence of `transact` calls left to right. -/
def runTransactions (u : UserAccount) : List TxCall → UserAccount
  | [] => u
  | c :: rest => runTransactions (transact u c.amount c.txId c.ts c.source c.label) rest

/-- The full (untruncated) sequence of ledger entries that a sequence of
`transact` calls generates from starting balance `b`. -/
def entriesFrom (b : ℚ) : List TxCall → List Tx
  | [] => []
  | c :: rest =>
    { id := c.txId, ts := c.ts, amount := round2 c.amount,
      balanceAfter := round2 (max 0 (b + c.amount)), source := c.source,
      label := c.label } :: entriesFrom (round2 (max 0 (b + c.amount))) rest

theorem length_entriesFrom (calls : List TxCall) :
    ∀ b, (entriesFrom b calls).length = calls.length := by
  induction calls with
  | nil => intro b; rfl
  | cons c rest ih => intro b; simp [entriesFrom, ih]

/-- Invariant-carrying form: from any state whose ledger is within the 200
bound, the final balance is the left fold of `round2 ∘ max 0 ∘ (+)` and
the final ledger is the truncation of the whole generated history. -/
theorem runTransactions_spec (calls : List TxCall) :
    ∀ u : UserAccount, u.transactions.length ≤ 200 →
      (runTransactions u calls).balance
        = calls.foldl (fun b c => round2 (max 0 (b + c.amount))) u.balance
      ∧ (runTransactions u calls).transactions
        = sliceLast (u.transactions ++ entriesFrom u.balance calls) 200 := by
  induction calls with
  | nil =>
    intro u htx
    exact ⟨rfl, by rw [entriesFrom, List.append_nil]; exact (sliceLast_of_le htx).symm⟩
  | cons c rest ih =>
    intro u htx
    have hlen : (transact u c.amount c.txId c.ts c.source c.label).transactions.length
        ≤ 200 := by
      simp only [transact]
      rw [length_sliceLast]
      omega
    have h := ih (transact u c.amount c.txId c.ts c.source c.label) hlen
    have hrun : runTransactions u (c :: rest)
        = runTransactions (transact u c.amount c.txId c.ts c.source c.label) rest :=
      rfl
    constructor
    · exact h.1
    · rw [hrun, h.2]
      simp only [transact, entriesFrom]
      rw [sliceLast_append_left, List.append_assoc]
      rfl

/-- C2: starting from an empty ledger, after `N` `transact` calls the balance
is the iterate of `b ↦ round2(max 0 (b + aᵢ))` over the amounts, the ledger
has `min N 200` entries, and it is the generated history with the oldest
`N − 200` entries dropped. -/
theorem applyTransaction_fold (u : UserAccount) (calls : List TxCall)
    (h : u.transactions = []) :
    (runTransactions u calls).balance
      = calls.foldl (fun b c => round2 (max 0 (b + c.amount))) u.balance
    ∧ (runTransactions u calls).transactions.length = min calls.length 200
    ∧ (runTransactions u calls).transactions
        = (entriesFrom u.balance calls).drop (calls.length - 200) := by
  have hspec := runTransactions_spec calls u (by rw [h]; simp)
  refine ⟨hspec.1, ?_, ?_⟩
  · rw [hspec.2, h, List.nil_append, length_sliceLast, length_entriesFrom]
  · rw [hspec.2, h, List.nil_append]
    unfold sliceLast
    rw [length_entriesFrom]

/-- Witness for C2 at a concrete input: two calls from the initial (empty
ledger) state leave exactly `min 2 200` entries. -/
theorem applyTransaction_fold_witness :
    (runTransactions initialUser
      [⟨100, 1, "t1", "quiz", none⟩, ⟨-30, 2, "t2", "food", none⟩]).transactions.length
      = min 2 200 :=
  (applyTransaction_fold initialUser
    [⟨100, 1, "t1", "quiz", none⟩, ⟨-30, 2, "t2", "food", none⟩] rfl).2.1

-- C8 --------------------------------------------------------------------------

/-- One daily task `{id, text, done}` of `HabitTracker`. -/
structure HabitTask where
  id : ℕ
  text : String
  done : Bool
deriving Repr, DecidableEq

/-- The `fintwitch_streak` record `{current, best, lastDate, history}`. -/
structure Streak where
  current : ℕ
  best : ℕ
  lastDate : Option ℕ
  history : List ℕ
deriving Repr, DecidableEq

/-- The habit tracker's state: tasks plus streak record. -/
structure HabitState where
  tasks : List HabitTask
  streak : Streak
deriving Repr, DecidableEq

/-- `toggleTask(id)` from App.jsx: flip the `done` flag of one task. -/
def toggleTask (s : HabitState) (id : ℕ) : HabitState :=
  { s with
      tasks := s.tasks.map fun t =>
        if t.id = id then { t with done := !t.done } else t }

/-- The `useEffect` on `[tasks]` in `HabitTracker`: when every task is done
and the streak was not already completed today, advance the streak. -/
def streakEffect (s : HabitState) (today : ℕ) : HabitState :=
  if (s.tasks.all fun t => t.done) = true ∧ s.streak.lastDate ≠ some today then
    let newCurrent :=
      if s.streak.lastDate = some (today - 1) then s.streak.current + 1 else 1
    { s with
        streak :=
          { current := newCurrent
            best := max newCurrent s.streak.best
            lastDate := some today
            history := s.streak.history ++ [today] } }
  else s

/-- One UI step of `HabitTracker`: a `toggleTask` click followed by the
effect that recomputes the streak from the new task list. -/
def habitStep (s : HabitState) (id today : ℕ) : HabitState :=
  streakEffect (toggleTask s id) today

/-- C8: when a toggle makes the task set all-done and the streak was not
already completed today, the streak advances: `current` becomes
`current + 1` if the last completion was yesterday and `1` otherwise,
`best` becomes `max best current'`, `lastCompletedDate` becomes today, and
today is appended to the history; and the transition fires at most once per
calendar day — any state already completed today keeps its streak unchanged
under every further toggle. -/
theorem habit_streak_advance (s : HabitState) (id today : ℕ)
    (hall : ((toggleTask s id).tasks.all fun t => t.done) = true)
    (hnot : s.streak.lastDate ≠ some today) :
    ((habitStep s id today).streak.current
        = if s.streak.lastDate = some (today - 1) then s.streak.current + 1 else 1)
    ∧ (habitStep s id today).streak.best
        = max s.streak.best (habitStep s id today).streak.current
    ∧ (habitStep s id today).streak.lastDate = some today
    ∧ (habitStep s id today).streak.history = s.streak.history ++ [today]
    ∧ ∀ (s2 : HabitState) (id2 : ℕ), s2.streak.lastDate = some today →
        (habitStep s2 id2 today).streak = s2.streak := by
  have hcond : ((toggleTask s id).tasks.all fun t => t.done) = true
      ∧ (toggleTask s id).streak.lastDate ≠ some today := ⟨hall, hnot⟩
  have hs : (toggleTask s id).streak = s.streak := rfl
  refine ⟨?_, ?_, ?_, ?_, ?_⟩
  · simp only [habitStep, streakEffect, if_pos hcond]
    rw [hs]
  · simp only [habitStep, streakEffect, if_pos hcond]
    exact Nat.max_comm _ _
  · simp only [habitStep, streakEffect, if_pos hcond]
  · simp only [habitStep, streakEffect, if_pos hcond]
    rw [hs]
  · intro s2 id2 h2
    have hneg : ¬ (((toggleTask s2 id2).tasks.all fun t => t.done) = true
        ∧ (toggleTask s2 id2).streak.lastDate ≠ some today) := fun hc => hc.2 h2
    simp only [habitStep, streakEffect, if_neg hneg]
    rfl

/-- A habit state two toggles away from all-done, never completed. -/
def habitBefore : HabitState :=
  { tasks := [⟨1, "Read 1 Article", true⟩, ⟨2, "Play a Game", true⟩,
      ⟨3, "Log In Today", false⟩]
    streak := { current := 0, best := 0, lastDate := none, history := [] } }

/-- Witness for C8 at a concrete input: toggling the last open task on day 1
marks the streak completed today and appends today to the history. -/
theorem habit_streak_advance_witness :
    (habitStep habitBefore 3 1).streak.lastDate = some 1
    ∧ (habitStep habitBefore 3 1).streak.history
        = habitBefore.streak.history ++ [1] := by
  have h := habit_streak_advance habitBefore 3 1 (by decide) (by decide)
  exact ⟨h.2.2.1, h.2.2.2.1⟩

-- C9 --------------------------------------------------------------------------

/-- JSON values: the local cache (`useLocalState`) stores
`JSON.stringify(state)` and reads it back with `JSON.parse`; a JSON text
denotes exactly one such value, so the string layer of the builtin
stringify/parse pair is modelled by the values themselves. -/
inductive Json where
  | null : Json
  | bool (b : Bool) : Json
  | num (q : ℚ) : Json
  | str (s : String) : Json
  | arr (items : List Json) : Json
  | obj (fields : List (String × Json)) : Json

/-- A JS string-or-null field. -/
def optStrToJson : Option String → Json
  | none => Json.null
  | some s => Json.str s

/-- A JS number holding a day index. -/
def natToJson (n : ℕ) : Json := Json.num n

/-- A JS date-or-null field (dates are day indices). -/
def optNatToJson : Option ℕ → Json
  | none => Json.null
  | some n => natToJson n

/-- Serialization of one ledger entry, field for field. -/
def txToJson (t : Tx) : Json :=
  Json.obj [("id", Json.num t.id), ("ts", Json.str t.ts),
    ("amount", Json.num t.amount), ("balanceAfter", Json.num t.balanceAfter),
    ("source", Json.str t.source), ("label", optStrToJson t.label)]

/-- Serialization of one investment position, field for field. -/
def invToJson (i : Investment) : Json :=
  Json.obj [("id", Json.num i.id), ("amount", Json.num i.amount),
    ("symbol", Json.str i.symbol)]

/-- `JSON.stringify` of the `fintwitch_user` state object, field for field
(the `readArticles` object maps each read id to `true`). -/
def userToJson (u : UserAccount) : Json :=
  Json.obj [("username", optStrToJson u.username),
    ("balance", Json.num u.balance),
    ("lastLogin", optNatToJson u.lastLogin),
    ("streak", Json.num u.streak),
    ("loginDates", Json.arr (u.loginDates.map natToJson)),
    ("readArticles", Json.obj (u.readArticles.map fun a => (a, Json.bool true))),
    ("investments", Json.arr (u.investments.map invToJson)),
    ("transactions", Json.arr (u.transactions.map txToJson))]

/-- Property access on a parsed JSON object: the first field with the key. -/
def getField (fields : List (String × Json)) (k : String) : Option Json :=
  (fields.find? fun p => p.1 = k).map fun p => p.2

def asStr : Json → Option String
  | Json.str s => some s
  | _ => none

def asRat : Json → Option ℚ
  | Json.num q => some q
  | _ => none

def asNat : Json → Option ℕ
  | Json.num q => if q.den = 1 ∧ 0 ≤ q.num then some q.num.toNat else none
  | _ => none

def asOptStr : Json → Option (Option String)
  | Json.null => some none
  | Json.str s => some (some s)
  | _ => none

def asOptNat : Json → Option (Option ℕ)
  | Json.null => some none
  | j => (asNat j).map some

/-- Decode a JSON array elementwise. -/
def listOfJson (g : Json → Option α) : Json → Option (List α)
  | Json.arr items => items.mapM g
  | _ => none

def isTrueVal : Json → Bool
  | Json.bool true => true
  | _ => false

/-- Decode the `readArticles` object back into its list of keys. -/
def readArticlesOfJson : Json → Option (List String)
  | Json.obj fields =>
    if fields.all fun p => isTrueVal p.2 then some (fields.map fun p => p.1)
    else none
  | _ => none

/-- Parse one ledger entry. -/
def txOfJson : Json → Option Tx
  | Json.obj fields => do
    let id ← getField fields "id" >>= asNat
    let ts ← getField fields "ts" >>= asStr
    let amount ← getField fields "amount" >>= asRat
    let balanceAfter ← getField fields "balanceAfter" >>= asRat
    let source ← getField fields "source" >>= asStr
    let label ← getField fields "label" >>= asOptStr
    some ⟨id, ts, amount, balanceAfter, source, label⟩
  | _ => none

/-- Parse one investment position. -/
def invOfJson : Json → Option Investment
  | Json.obj fields => do
    let id ← getField fields "id" >>= asNat
    let amount ← getField fields "amount" >>= asRat
    let symbol ← getField fields "symbol" >>= asStr
    some ⟨id, amount, symbol⟩
  | _ => none

/-- `JSON.parse` of a cached `fintwitch_user` document, reading each field
of the data model. -/
def userOfJson : Json → Option UserAccount
  | Json.obj fields => do
    let username ← getField fields "username" >>= asOptStr
    let balance ← getField fields "balance" >>= asRat
    let lastLogin ← getField fields "lastLogin" >>= asOptNat
    let streak ← getField fields "streak" >>= asNat
    let loginDates ← getField fields "loginDates" >>= listOfJson asNat
    let readArticles ← getField fields "readArticles" >>= readArticlesOfJson
    let investments ← getField fields "investments" >>= listOfJson invOfJson
    let transactions ← getField fields "transactions" >>= listOfJson txOfJson
    some ⟨username, balance, lastLogin, streak, loginDates, readArticles,
      investments, transactions⟩
  | _ => none

theorem asNat_natCast (n : ℕ) : asNat (natToJson n) = some n := by
  simp [natToJson, asNat, Rat.den_natCast, Rat.num_natCast]

theorem asOptNat_roundtrip (o : Option ℕ) :
    asOptNat (optNatToJson o) = some o := by
  cases o with
  | none => rfl
  | some n => simp [optNatToJson, asOptNat, natToJson, asNat, Rat.den_natCast,
      Rat.num_natCast]

theorem asOptStr_roundtrip (o : Option String) :
    asOptStr (optStrToJson o) = some o := by
  cases o <;> rfl

theorem mapM_map_roundtrip (f : α → Json) (g : Json → Option α)
    (hfg : ∀ a, g (f a) = some a) (l : List α) :
    (l.map f).mapM g = some l := by
  induction l with
  | nil => rfl
  | cons a l ih =>
    rw [List.map_cons, List.mapM_cons, hfg a, ih]
    rfl

theorem listOfJson_roundtrip (f : α → Json) (g : Json → Option α)
    (hfg : ∀ a, g (f a) = some a) (l : List α) :
    listOfJson g (Json.arr (l.map f)) = some l := by
  simp only [listOfJson]
  exact mapM_map_roundtrip f g hfg l

theorem readArticlesOfJson_roundtrip (l : List String) :
    readArticlesOfJson (Json.obj (l.map fun a => (a, Json.bool true)))
      = some l := by
  simp [readArticlesOfJson, isTrueVal, List.all_eq_true, Function.comp_def]

theorem txOfJson_roundtrip (t : Tx) : txOfJson (txToJson t) = some t := by
  obtain ⟨id, ts, amount, balanceAfter, source, label⟩ := t
  simp [txToJson, txOfJson, getField, asNat_natCast, asOptStr_roundtrip,
    asStr, asRat, natToJson, asNat, Rat.den_natCast, Rat.num_natCast]

theorem invOfJson_roundtrip (i : Investment) : invOfJson (invToJson i) = some i := by
  obtain ⟨id, amount, symbol⟩ := i
  simp [invToJson, invOfJson, getField, asNat_natCast, asStr, asRat, natToJson,
    asNat, Rat.den_natCast, Rat.num_natCast]

/-- C9: serializing a UserAccount to the local-cache encoding and parsing it
back reproduces the value in every field, for every well-formed state
(ledger within the 200 bound, login dates within the 30 bound — the bounds
play no role in the encoding, so the round trip is exact there too). -/
theorem localCache_roundtrip (u : UserAccount)
    (h : u.transactions.length ≤ 200 ∧ u.loginDates.length ≤ 30) :
    userOfJson (userToJson u) = some u := by
  obtain ⟨username, balance, lastLogin, streak, loginDates, readArticles,
    investments, transactions⟩ := u
  have hLD := listOfJson_roundtrip natToJson asNat asNat_natCast loginDates
  have hINV := listOfJson_roundtrip invToJson invOfJson invOfJson_roundtrip
    investments
  have hTX := listOfJson_roundtrip txToJson txOfJson txOfJson_roundtrip
    transactions
  simp only [userToJson, userOfJson, getField, List.find?]
  simp [asOptStr_roundtrip, asOptNat_roundtrip, asRat, natToJson, asNat,
    Rat.den_natCast, Rat.num_natCast, hLD, hINV, hTX,
    readArticlesOfJson_roundtrip]

/-- A state at both truncation boundaries: exactly 200 ledger entries and
exactly 30 login dates. -/
def boundaryUser : UserAccount :=
  { username := some "alice"
    balance := 1000
    lastLogin := some 5
    streak := 3
    loginDates := List.range 30
    readArticles := ["a1"]
    investments := [⟨1, 300, "TCS"⟩]
    transactions := List.replicate 200 ⟨1, "t", 10, 1010, "system", none⟩ }

/-- Witness for C9 at the truncation boundaries: a state with exactly 200
transactions and exactly 30 login dates round-trips unchanged. -/
theorem localCache_roundtrip_witness :
    (boundaryUser.transactions.length ≤ 200 ∧ boundaryUser.loginDates.length ≤ 30)
    ∧ userOfJson (userToJson boundaryUser) = some boundaryUser := by
  have htx : boundaryUser.transactions.length ≤ 200 := by
    rw [show boundaryUser.transactions
        = List.replicate 200 ⟨1, "t", 10, 1010, "system", none⟩ from rfl,
      List.length_replicate]
  have hld : boundaryUser.loginDates.length ≤ 30 := by
    rw [show boundaryUser.loginDates = List.range 30 from rfl, List.length_range]
  exact ⟨⟨htx, hld⟩, localCache_roundtrip boundaryUser ⟨htx, hld⟩⟩
